import Mathlib

/-!
Verification of the Iterative Search Refinement Engine of the LeadOn
repository (`services/agentic_search_service.py`), shallowly embedded in
Lean 4.  External collaborators (the Claude planning oracle and the Apollo
contact-search provider) are modelled as function parameters; all control
flow, accumulation and deduplication logic is translated directly from the
Python source.
-/

namespace AgenticSearch

/-- The placeholder emails hard-coded in `_deduplicate_contacts`
(`placeholder_emails` in the source). -/
def placeholder_emails : List String :=
  ["email_not_unlocked@domain.com", "email_not_available@domain.com", "noemail@domain.com"]

/-- A contact dictionary, restricted to the fields the engine reads:
`email`, `linkedin_url`, `id`, `company` (all read with `.get`, hence
optional) plus a representative opaque payload field `name` standing for
the rest of the record, which the engine never inspects. -/
structure Contact where
  email : Option String
  linkedin_url : Option String
  id : Option String
  company : Option String
  name : String
deriving DecidableEq, Repr

/-- Python truthiness for an optional string: `None` and `""` are falsy.
The source guards every identity field with `if field and ...`. -/
def nonEmptyOpt : Option String → Option String
  | none => none
  | some s => if s = "" then none else some s

/-- The email value used for dedup checks: `email = contact.get("email")`
followed by `if email in placeholder_emails: email = None`, and Python
truthiness at the use sites. -/
def dedupEmail (c : Contact) : Option String :=
  nonEmptyOpt (match c.email with
    | some e => if e ∈ placeholder_emails then none else some e
    | none => none)

/-- The LinkedIn value used for dedup checks (with Python truthiness). -/
def dedupLinkedin (c : Contact) : Option String :=
  nonEmptyOpt c.linkedin_url

/-- The provider id value used for dedup checks (with Python truthiness). -/
def dedupId (c : Contact) : Option String :=
  nonEmptyOpt c.id

/-- Python's `field and field in seen` from the source. -/
def memOpt (o : Option String) (seen : List String) : Bool :=
  match o with
  | none => false
  | some s => decide (s ∈ seen)

/-- Python's `if field: seen.add(field)` from the source (sets modelled as lists;
only membership is ever consulted). -/
def addOpt (o : Option String) (seen : List String) : List String :=
  match o with
  | none => seen
  | some s => s :: seen

/-- The mutable state of `_deduplicate_contacts`: the three seen-sets and
the accumulated `unique` output list. -/
structure DedupState where
  seen_emails : List String
  seen_linkedin : List String
  seen_ids : List String
  unique : List Contact
deriving Repr

/-- The `is_duplicate` elif chain of `_deduplicate_contacts`. -/
def isDuplicate (st : DedupState) (c : Contact) : Bool :=
  if memOpt (dedupEmail c) st.seen_emails then true
  else if memOpt (dedupLinkedin c) st.seen_linkedin then true
  else if memOpt (dedupId c) st.seen_ids then true
  else false

/-- One iteration of the `for contact in contacts` loop of
`_deduplicate_contacts`. -/
def dedupStep (st : DedupState) (c : Contact) : DedupState :=
  if isDuplicate st c then st
  else
    { seen_emails := addOpt (dedupEmail c) st.seen_emails
      seen_linkedin := addOpt (dedupLinkedin c) st.seen_linkedin
      seen_ids := addOpt (dedupId c) st.seen_ids
      unique := st.unique ++ [c] }

/-- Translation of `AgenticSearchService._deduplicate_contacts`. -/
def deduplicate_contacts (contacts : List Contact) : List Contact :=
  (contacts.foldl dedupStep ⟨[], [], [], []⟩).unique

/-- The spec's IdentityKey values: an email, a profile URL, or a
provider-assigned id. -/
inductive IdentityKey where
  | email (e : String)
  | profile (u : String)
  | providerKey (i : String)
deriving DecidableEq, Repr

/-- Modelled from the spec (§3 IdentityKey): the single deduplication key of
a ContactRecord, computed with priority (1) non-placeholder email, else
(2) profile URL, else (3) provider-assigned id, else (4) no stable
identity (`none`).  Used to compare the spec's single-key policy with the
source's three independent seen-sets. -/
def specIdentityKey (c : Contact) : Option IdentityKey :=
  match dedupEmail c with
  | some e => some (.email e)
  | none =>
    match dedupLinkedin c with
    | some u => some (.profile u)
    | none =>
      match dedupId c with
      | some i => some (.providerKey i)
      | none => none

example : deduplicate_contacts
    [⟨some "a@x.com", some "L", none, none, "a"⟩,
     ⟨some "b@x.com", some "L", none, none, "b"⟩] =
    [⟨some "a@x.com", some "L", none, none, "a"⟩] := by decide

example :
    deduplicate_contacts [⟨some "email_not_unlocked@domain.com", none, none, none, "x"⟩,
      ⟨some "email_not_unlocked@domain.com", none, none, none, "x"⟩] =
    [⟨some "email_not_unlocked@domain.com", none, none, none, "x"⟩,
     ⟨some "email_not_unlocked@domain.com", none, none, none, "x"⟩] := by decide

/-- A search query dictionary as produced by the planning oracle and
consumed by `_execute_apollo_search` (keys of the JSON objects the source
prompts for). -/
structure QuerySpec where
  titles : List String
  keywords : List String
  person_seniorities : List String
  organization_num_employees_ranges : List String
  reasoning : String
deriving DecidableEq, Repr

/-- One entry of `search_history` as appended by `run_agentic_search`. -/
structure RoundRecord where
  iteration : Nat
  query_params : QuerySpec
  results_count : Nat
  companies_found : Nat
deriving DecidableEq, Repr

/-- Python's `list(set([c.get("company") for c in contacts if c.get("company")]))`
from `_execute_apollo_search`: the distinct truthy company names. -/
def extractCompanies (contacts : List Contact) : List String :=
  (contacts.filterMap (fun c => nonEmptyOpt c.company)).dedup

/-- Translation of `AgenticSearchService._execute_apollo_search`: calls the provider and,
on any exception, logs and returns `([], [])` — the same value as a
zero-result success. -/
def execute_apollo_search (provider : QuerySpec → Int → Except String (List Contact))
    (query_params : QuerySpec) (max_results : Int) : List Contact × List String :=
  match provider query_params max_results with
  | .ok contacts => (contacts, extractCompanies contacts)
  | .error _ => ([], [])

/-- The run's external collaborators and caller-supplied arguments:
`provider` models `self.apollo.search_people` (which may raise),
`initial_queries` the list returned by `_generate_search_queries`
(fallback already applied — that call never raises), `expand` models
`_learn_and_expand` and `refine` models `_refine_failed_search` (both
already include their internal catch-all, so they total functions). -/
structure RunConfig where
  provider : QuerySpec → Int → Except String (List Contact)
  initial_queries : List QuerySpec
  expand : List Contact → List RoundRecord → List QuerySpec
  refine : QuerySpec → List RoundRecord → List QuerySpec
  max_iterations : Int
  min_results : Int
  max_results_per_query : Int

/-- The local variables of `run_agentic_search` during the main loop.
`search_queries`/`idx` model Python's `for query_params in search_queries`
over a list that is extended while being iterated; `contacts_per_round`
records each round's raw contact list (the successive `extend` arguments,
so `all_contacts` is their concatenation); `planner_calls` counts calls to
the Claude-backed helpers and `provider_calls` calls to Apollo. -/
structure RunState where
  all_contacts : List Contact
  all_companies : List String
  search_history : List RoundRecord
  iteration : Nat
  search_queries : List QuerySpec
  idx : Nat
  contacts_per_round : List (List Contact)
  planner_calls : Nat
  provider_calls : Nat

/-- Python's `all_companies.update(companies)` (insertion-ordered set union). -/
def setUnion (acc new : List String) : List String :=
  new.foldl (fun a c => if c ∈ a then a else a ++ [c]) acc

/-- Lexicographic decrease of the loop measure: the round counter is capped
by `m` as long as new queries can be appended, and once it passes `m` the
queue is frozen and the index catches up. -/
theorem lex_measure_step {m : Int} {iter idx qlen qlen' : Nat}
    (hidx : idx < qlen) (hq : qlen ≤ qlen')
    (hgrow : qlen < qlen' → ((iter : Int) + 1) < m) :
    Prod.Lex (· < ·) (· < ·)
      ((m - ((iter + 1 : Nat) : Int)).toNat, qlen' - (idx + 1))
      ((m - (iter : Int)).toNat, qlen - idx) := by
  rcases lt_or_le 0 (m - (iter : Int)) with h0 | h0
  · exact Prod.Lex.left _ _ (by omega)
  · have hq2 : qlen' = qlen := by
      rcases Nat.lt_or_ge qlen qlen' with h | h
      · exact absurd (hgrow h) (by omega)
      · omega
    have he : (m - ((iter + 1 : Nat) : Int)).toNat = (m - (iter : Int)).toNat := by omega
    rw [hq2, he]
    exact Prod.Lex.right _ (by omega)

/-- The `for query_params in search_queries` loop of `run_agentic_search`
(lines 82–137 of the source), one Lean recursion step per Python loop
iteration.  The four recursive calls are the four ways one iteration can
end: zero results with / without refinement, and results found with /
without expansion. -/
def runLoop (cfg : RunConfig) (st : RunState) : RunState :=
  if h : st.idx < st.search_queries.length then
    if cfg.min_results ≤ (st.all_contacts.length : Int) then st
    else
      let query_params := st.search_queries[st.idx]
      let iter := st.iteration + 1
      let res := execute_apollo_search cfg.provider query_params cfg.max_results_per_query
      let hist := st.search_history ++
        [{ iteration := iter, query_params := query_params,
           results_count := res.1.length, companies_found := res.2.length }]
      if res.1 = [] then
        if hiter : ((iter : Nat) : Int) < cfg.max_iterations then
          runLoop cfg
            { all_contacts := st.all_contacts, all_companies := st.all_companies,
              search_history := hist, iteration := iter,
              search_queries := st.search_queries ++ cfg.refine query_params hist,
              idx := st.idx + 1,
              contacts_per_round := st.contacts_per_round ++ [res.1],
              planner_calls := st.planner_calls + 1, provider_calls := st.provider_calls + 1 }
        else
          runLoop cfg
            { all_contacts := st.all_contacts, all_companies := st.all_companies,
              search_history := hist, iteration := iter,
              search_queries := st.search_queries, idx := st.idx + 1,
              contacts_per_round := st.contacts_per_round ++ [res.1],
              planner_calls := st.planner_calls, provider_calls := st.provider_calls + 1 }
      else
        if hmore : ((st.all_contacts ++ res.1).length : Int) < cfg.min_results ∧
            ((iter : Nat) : Int) < cfg.max_iterations then
          runLoop cfg
            { all_contacts := st.all_contacts ++ res.1,
              all_companies := setUnion st.all_companies res.2,
              search_history := hist, iteration := iter,
              search_queries := st.search_queries ++ cfg.expand res.1 hist,
              idx := st.idx + 1,
              contacts_per_round := st.contacts_per_round ++ [res.1],
              planner_calls := st.planner_calls + 1, provider_calls := st.provider_calls + 1 }
        else
          runLoop cfg
            { all_contacts := st.all_contacts ++ res.1,
              all_companies := setUnion st.all_companies res.2,
              search_history := hist, iteration := iter,
              search_queries := st.search_queries, idx := st.idx + 1,
              contacts_per_round := st.contacts_per_round ++ [res.1],
              planner_calls := st.planner_calls, provider_calls := st.provider_calls + 1 }
  else st
termination_by ((cfg.max_iterations - (st.iteration : Int)).toNat, st.search_queries.length - st.idx)
decreasing_by
  · exact lex_measure_step h (by simp) (fun _ => by push_cast at hiter ⊢; omega)
  · exact lex_measure_step h le_rfl (fun hlt => absurd hlt (lt_irrefl _))
  · exact lex_measure_step h (by simp) (fun _ => by
      have := hmore.2; push_cast at this ⊢; omega)
  · exact lex_measure_step h le_rfl (fun hlt => absurd hlt (lt_irrefl _))

/-- The dictionary returned by `run_agentic_search`, plus the model-level
observables: the per-round raw contact lists, the final value of the
`search_queries` list, and the call counters.  The float field
`avg_results_per_query` is omitted (floating point; unused by any claim). -/
structure RunResult where
  contacts : List Contact
  companies : List String
  search_history : List RoundRecord
  iterations : Nat
  total_contacts : Nat
  total_companies : Nat
  queries_executed : Nat
  contacts_per_round : List (List Contact)
  final_queue : List QuerySpec
  planner_calls : Nat
  provider_calls : Nat

/-- The state of `run_agentic_search` just after Step 1 (the unconditional
`_generate_search_queries` planner call) and before the loop. -/
def initState (cfg : RunConfig) : RunState :=
  { all_contacts := [], all_companies := [], search_history := [],
    iteration := 0, search_queries := cfg.initial_queries, idx := 0,
    contacts_per_round := [], planner_calls := 1, provider_calls := 0 }

/-- Translation of `AgenticSearchService.run_agentic_search`: generates initial queries
(one unconditional planner call, before any bound is looked at), runs the
loop, deduplicates, and assembles the result dictionary. -/
def run_agentic_search (cfg : RunConfig) : RunResult :=
  let fin := runLoop cfg (initState cfg)
  let unique := deduplicate_contacts fin.all_contacts
  { contacts := unique,
    companies := fin.all_companies,
    search_history := fin.search_history,
    iterations := fin.iteration,
    total_contacts := unique.length,
    total_companies := fin.all_companies.length,
    queries_executed := fin.search_history.length,
    contacts_per_round := fin.contacts_per_round,
    final_queue := fin.search_queries,
    planner_calls := fin.planner_calls,
    provider_calls := fin.provider_calls }

/-! ### Helper lemmas about `_deduplicate_contacts` -/

theorem specIdentityKey_eq_email {c : Contact} {e : String} :
    specIdentityKey c = some (.email e) ↔ dedupEmail c = some e := by
  unfold specIdentityKey
  rcases h1 : dedupEmail c with _ | e' <;> rcases h2 : dedupLinkedin c with _ | u <;>
    rcases h3 : dedupId c with _ | i <;> simp

theorem specIdentityKey_eq_profile {c : Contact} {u : String} :
    specIdentityKey c = some (.profile u) ↔ dedupEmail c = none ∧ dedupLinkedin c = some u := by
  unfold specIdentityKey
  rcases h1 : dedupEmail c with _ | e' <;> rcases h2 : dedupLinkedin c with _ | u' <;>
    rcases h3 : dedupId c with _ | i <;> simp

theorem specIdentityKey_eq_providerKey {c : Contact} {i : String} :
    specIdentityKey c = some (.providerKey i) ↔
      dedupEmail c = none ∧ dedupLinkedin c = none ∧ dedupId c = some i := by
  unfold specIdentityKey
  rcases h1 : dedupEmail c with _ | e' <;> rcases h2 : dedupLinkedin c with _ | u' <;>
    rcases h3 : dedupId c with _ | i' <;> simp

theorem specIdentityKey_eq_none {c : Contact} :
    specIdentityKey c = none ↔
      dedupEmail c = none ∧ dedupLinkedin c = none ∧ dedupId c = none := by
  unfold specIdentityKey
  rcases h1 : dedupEmail c with _ | e' <;> rcases h2 : dedupLinkedin c with _ | u' <;>
    rcases h3 : dedupId c with _ | i' <;> simp

theorem memOpt_none (seen : List String) : memOpt none seen = false := rfl

theorem mem_addOpt {x : String} {o : Option String} {seen : List String} (h : x ∈ seen) :
    x ∈ addOpt o seen := by
  cases o with
  | none => exact h
  | some s => exact List.mem_cons_of_mem s h

/-- The output list of the dedup fold extends the starting `unique` list by
a sublist of the processed input: nothing is invented, reordered or
modified. -/
theorem foldl_dedup_unique_append (l : List Contact) (st : DedupState) :
    ∃ l2, (l.foldl dedupStep st).unique = st.unique ++ l2 ∧ l2.Sublist l := by
  induction l generalizing st with
  | nil => exact ⟨[], by simp, List.Sublist.refl []⟩
  | cons c tl ih =>
    simp only [List.foldl_cons]
    rcases ih (dedupStep st c) with ⟨l2, hu, hs⟩
    by_cases hd : isDuplicate st c
    · refine ⟨l2, ?_, List.Sublist.cons c hs⟩
      rw [hu]; simp [dedupStep, hd]
    · refine ⟨c :: l2, ?_, List.Sublist.cons₂ c hs⟩
      rw [hu]; simp [dedupStep, hd]

theorem dedup_sublist (l : List Contact) : (deduplicate_contacts l).Sublist l := by
  rcases foldl_dedup_unique_append l ⟨[], [], [], []⟩ with ⟨l2, hu, hs⟩
  unfold deduplicate_contacts
  rw [hu]
  simpa using hs

theorem dedup_length_le (l : List Contact) :
    (deduplicate_contacts l).length ≤ l.length :=
  (dedup_sublist l).length_le

/-- Every retained record has each of its identity fields registered in the
corresponding seen-set. -/
def SeenClosed (st : DedupState) : Prop :=
  (∀ c ∈ st.unique, ∀ e, dedupEmail c = some e → e ∈ st.seen_emails) ∧
  (∀ c ∈ st.unique, ∀ u, dedupLinkedin c = some u → u ∈ st.seen_linkedin) ∧
  (∀ c ∈ st.unique, ∀ i, dedupId c = some i → i ∈ st.seen_ids)

/-- No two retained records share a (non-trivial) spec IdentityKey. -/
def KeyDistinct (st : DedupState) : Prop :=
  st.unique.Pairwise (fun x y => ∀ k, specIdentityKey x = some k → specIdentityKey y ≠ some k)

theorem dedupStep_closed_distinct {st : DedupState} (c : Contact)
    (hc : SeenClosed st) (hk : KeyDistinct st) :
    SeenClosed (dedupStep st c) ∧ KeyDistinct (dedupStep st c) := by
  by_cases hd : isDuplicate st c
  · simpa [dedupStep, hd] using ⟨hc, hk⟩
  · obtain ⟨hce, hcl, hci⟩ := hc
    have hstep : dedupStep st c =
        { seen_emails := addOpt (dedupEmail c) st.seen_emails
          seen_linkedin := addOpt (dedupLinkedin c) st.seen_linkedin
          seen_ids := addOpt (dedupId c) st.seen_ids
          unique := st.unique ++ [c] } := by simp [dedupStep, hd]
    constructor
    · rw [hstep]
      refine ⟨?_, ?_, ?_⟩ <;> intro x hx f hf
      · rcases List.mem_append.1 hx with hx | hx
        · exact mem_addOpt (hce x hx f hf)
        · rw [List.mem_singleton.1 hx] at hf
          rw [hf]; exact List.mem_cons_self f _
      · rcases List.mem_append.1 hx with hx | hx
        · exact mem_addOpt (hcl x hx f hf)
        · rw [List.mem_singleton.1 hx] at hf
          rw [hf]; exact List.mem_cons_self f _
      · rcases List.mem_append.1 hx with hx | hx
        · exact mem_addOpt (hci x hx f hf)
        · rw [List.mem_singleton.1 hx] at hf
          rw [hf]; exact List.mem_cons_self f _
    · rw [hstep]
      unfold KeyDistinct
      rw [List.pairwise_append]
      refine ⟨hk, List.pairwise_singleton _ c, ?_⟩
      intro x hx y hy k hxk hyk
      rw [List.mem_singleton.1 hy] at hyk
      apply hd
      cases k with
      | email e =>
        have hx' := specIdentityKey_eq_email.1 hxk
        have hy' := specIdentityKey_eq_email.1 hyk
        have : memOpt (dedupEmail c) st.seen_emails = true := by
          rw [hy']; simpa [memOpt] using hce x hx e hx'
        simp [isDuplicate, this]
      | profile u =>
        obtain ⟨hye, hyl⟩ := specIdentityKey_eq_profile.1 hyk
        obtain ⟨hxe, hxl⟩ := specIdentityKey_eq_profile.1 hxk
        have h2 : memOpt (dedupLinkedin c) st.seen_linkedin = true := by
          rw [hyl]; simpa [memOpt] using hcl x hx u hxl
        simp [isDuplicate, hye, h2, memOpt_none]
      | providerKey i =>
        obtain ⟨hye, hyl, hyi⟩ := specIdentityKey_eq_providerKey.1 hyk
        obtain ⟨hxe, hxl, hxi⟩ := specIdentityKey_eq_providerKey.1 hxk
        have h3 : memOpt (dedupId c) st.seen_ids = true := by
          rw [hyi]; simpa [memOpt] using hci x hx i hxi
        simp [isDuplicate, hye, hyl, h3, memOpt_none]

theorem foldl_dedup_closed_distinct (l : List Contact) (st : DedupState)
    (hc : SeenClosed st) (hk : KeyDistinct st) :
    SeenClosed (l.foldl dedupStep st) ∧ KeyDistinct (l.foldl dedupStep st) := by
  induction l generalizing st with
  | nil => exact ⟨hc, hk⟩
  | cons c tl ih =>
    rcases dedupStep_closed_distinct c hc hk with ⟨hc', hk'⟩
    simpa using ih (dedupStep st c) hc' hk'

/-- No two records retained by `_deduplicate_contacts` share a non-trivial
IdentityKey. -/
theorem dedup_key_pairwise (l : List Contact) :
    (deduplicate_contacts l).Pairwise
      (fun x y => ∀ k, specIdentityKey x = some k → specIdentityKey y ≠ some k) := by
  have h := foldl_dedup_closed_distinct l ⟨[], [], [], []⟩
    (by refine ⟨?_, ?_, ?_⟩ <;> intro c hc <;> simp at hc)
    (by simp [KeyDistinct])
  exact h.2

/-- The seen-sets of `s` are contained in those of `t`. -/
def seenLE (s t : DedupState) : Prop :=
  (∀ x ∈ s.seen_emails, x ∈ t.seen_emails) ∧
  (∀ x ∈ s.seen_linkedin, x ∈ t.seen_linkedin) ∧
  (∀ x ∈ s.seen_ids, x ∈ t.seen_ids)

theorem seenLE_refl (s : DedupState) : seenLE s s :=
  ⟨fun _ h => h, fun _ h => h, fun _ h => h⟩

theorem seenLE_trans {s t u : DedupState} (h1 : seenLE s t) (h2 : seenLE t u) : seenLE s u :=
  ⟨fun x hx => h2.1 x (h1.1 x hx), fun x hx => h2.2.1 x (h1.2.1 x hx),
   fun x hx => h2.2.2 x (h1.2.2 x hx)⟩

theorem seenLE_dedupStep (st : DedupState) (c : Contact) : seenLE st (dedupStep st c) := by
  by_cases hd : isDuplicate st c
  · simpa [dedupStep, hd] using seenLE_refl st
  · exact ⟨fun x hx => by simpa [dedupStep, hd] using mem_addOpt hx,
      fun x hx => by simpa [dedupStep, hd] using mem_addOpt hx,
      fun x hx => by simpa [dedupStep, hd] using mem_addOpt hx⟩

theorem seenLE_foldl (l : List Contact) (st : DedupState) :
    seenLE st (l.foldl dedupStep st) := by
  induction l generalizing st with
  | nil => exact seenLE_refl st
  | cons c tl ih =>
    simpa using seenLE_trans (seenLE_dedupStep st c) (ih (dedupStep st c))

theorem memOpt_mono {o : Option String} {s t : List String}
    (hsub : ∀ x ∈ s, x ∈ t) (h : memOpt o s = true) : memOpt o t = true := by
  cases o with
  | none => simp [memOpt] at h
  | some v => simp only [memOpt, decide_eq_true_eq] at h ⊢; exact hsub v h

theorem isDuplicate_mono {s t : DedupState} {c : Contact} (hle : seenLE s t)
    (h : isDuplicate s c = true) : isDuplicate t c = true := by
  unfold isDuplicate at h ⊢
  by_cases h1 : memOpt (dedupEmail c) s.seen_emails = true
  · simp [memOpt_mono hle.1 h1]
  · by_cases h2 : memOpt (dedupLinkedin c) s.seen_linkedin = true
    · simp [memOpt_mono hle.2.1 h2]
    · by_cases h3 : memOpt (dedupId c) s.seen_ids = true
      · simp [memOpt_mono hle.2.2 h3]
      · simp [h1, h2, h3] at h

theorem dedupStep_of_dup {st : DedupState} {c : Contact}
    (hd : isDuplicate st c = true) : dedupStep st c = st := by
  simp [dedupStep, hd]

theorem dedupStep_of_new {st : DedupState} {c : Contact}
    (hd : isDuplicate st c = false) :
    dedupStep st c =
      { seen_emails := addOpt (dedupEmail c) st.seen_emails
        seen_linkedin := addOpt (dedupLinkedin c) st.seen_linkedin
        seen_ids := addOpt (dedupId c) st.seen_ids
        unique := st.unique ++ [c] } := by
  simp [dedupStep, hd]

/-- After processing `c`, a record with some stable identity field is a
duplicate of itself: its first present field is now in a seen-set. -/
theorem isDuplicate_after_step (st : DedupState) (c : Contact)
    (hk : specIdentityKey c ≠ none) : isDuplicate (dedupStep st c) c = true := by
  by_cases hd : isDuplicate st c
  · rw [dedupStep_of_dup hd]; exact hd
  · rw [dedupStep_of_new (by simpa using hd)]
    rcases he : dedupEmail c with _ | e
    · rcases hl : dedupLinkedin c with _ | u
      · rcases hi : dedupId c with _ | i
        · exact absurd (specIdentityKey_eq_none.2 ⟨he, hl, hi⟩) hk
        · simp [isDuplicate, he, hl, hi, memOpt, addOpt, memOpt_none]
      · simp [isDuplicate, he, hl, memOpt, addOpt, memOpt_none]
    · simp [isDuplicate, he, memOpt, addOpt]

theorem isDuplicate_after_foldl (l : List Contact) (st : DedupState) (c : Contact)
    (hc : c ∈ l) (hk : specIdentityKey c ≠ none) :
    isDuplicate (l.foldl dedupStep st) c = true := by
  induction l generalizing st with
  | nil => cases hc
  | cons d tl ih =>
    rcases List.mem_cons.1 hc with rfl | hc'
    · simp only [List.foldl_cons]
      exact isDuplicate_mono (seenLE_foldl tl (dedupStep st c))
        (isDuplicate_after_step st c hk)
    · simpa using ih (dedupStep st d) hc'

theorem foldl_dedup_absorb (l : List Contact) (st : DedupState)
    (h : ∀ c ∈ l, isDuplicate st c = true) : l.foldl dedupStep st = st := by
  induction l with
  | nil => rfl
  | cons c tl ih =>
    have hc := h c (List.mem_cons_self c tl)
    have hstep : dedupStep st c = st := by simp [dedupStep, hc]
    simp only [List.foldl_cons, hstep]
    exact ih fun d hd => h d (List.mem_cons_of_mem c hd)

/-- Idempotence of the dedup fold for inputs whose records all carry a
stable identity: re-merging the same list is a no-op. -/
theorem dedup_self_append_of_keys (l : List Contact)
    (hk : ∀ c ∈ l, specIdentityKey c ≠ none) :
    deduplicate_contacts (l ++ l) = deduplicate_contacts l := by
  unfold deduplicate_contacts
  rw [List.foldl_append]
  rw [foldl_dedup_absorb l (l.foldl dedupStep ⟨[], [], [], []⟩)
    (fun c hc => isDuplicate_after_foldl l _ c hc (hk c hc))]

/-- Two records whose emails are both placeholder strings survive dedup
together whenever they do not share a (truthy) LinkedIn URL or provider
id. -/
theorem placeholder_pair_kept (a b : Contact)
    (ha : ∃ e, a.email = some e ∧ e ∈ placeholder_emails)
    (hb : ∃ e, b.email = some e ∧ e ∈ placeholder_emails)
    (hL : ∀ u, dedupLinkedin a = some u → dedupLinkedin b ≠ some u)
    (hI : ∀ i, dedupId a = some i → dedupId b ≠ some i) :
    deduplicate_contacts [a, b] = [a, b] := by
  obtain ⟨ea, hea, heaP⟩ := ha
  obtain ⟨eb, heb, hebP⟩ := hb
  have hae : dedupEmail a = none := by simp [dedupEmail, hea, heaP, nonEmptyOpt]
  have hbe : dedupEmail b = none := by simp [dedupEmail, heb, hebP, nonEmptyOpt]
  have hstep1 : isDuplicate ⟨[], [], [], []⟩ a = false := by
    simp [isDuplicate, memOpt]
    constructor
    · rcases dedupEmail a with _ | e <;> simp
    constructor
    · rcases dedupLinkedin a with _ | u <;> simp
    · rcases dedupId a with _ | i <;> simp
  have hdup2 : isDuplicate (dedupStep ⟨[], [], [], []⟩ a) b = false := by
    rw [dedupStep_of_new hstep1]
    simp only [isDuplicate]
    have h1 : memOpt (dedupEmail b) (addOpt (dedupEmail a) []) = false := by
      simp [hbe, memOpt_none]
    have h2 : memOpt (dedupLinkedin b) (addOpt (dedupLinkedin a) []) = false := by
      rcases hlb : dedupLinkedin b with _ | u
      · simp [memOpt_none]
      · rcases hla : dedupLinkedin a with _ | v
        · simp [memOpt, addOpt]
        · have : u ≠ v := fun huv => hL v hla (by rw [hlb, huv])
          simp [memOpt, addOpt, this]
    have h3 : memOpt (dedupId b) (addOpt (dedupId a) []) = false := by
      rcases hib : dedupId b with _ | i
      · simp [memOpt_none]
      · rcases hia : dedupId a with _ | j
        · simp [memOpt, addOpt]
        · have : i ≠ j := fun hij => hI j hia (by rw [hib, hij])
          simp [memOpt, addOpt, this]
    simp [h1, h2, h3]
  show (List.foldl dedupStep ⟨[], [], [], []⟩ [a, b]).unique = [a, b]
  simp only [List.foldl_cons, List.foldl_nil]
  rw [dedupStep_of_new hdup2, dedupStep_of_new hstep1]
  simp

/-! ### Helper lemmas about the `run_agentic_search` loop -/

theorem run_search_history (cfg : RunConfig) :
    (run_agentic_search cfg).search_history = (runLoop cfg (initState cfg)).search_history := rfl

theorem run_contacts (cfg : RunConfig) :
    (run_agentic_search cfg).contacts =
      deduplicate_contacts (runLoop cfg (initState cfg)).all_contacts := rfl

theorem run_iterations (cfg : RunConfig) :
    (run_agentic_search cfg).iterations = (runLoop cfg (initState cfg)).iteration := rfl

theorem run_contacts_per_round (cfg : RunConfig) :
    (run_agentic_search cfg).contacts_per_round =
      (runLoop cfg (initState cfg)).contacts_per_round := rfl

theorem run_final_queue (cfg : RunConfig) :
    (run_agentic_search cfg).final_queue = (runLoop cfg (initState cfg)).search_queries := rfl

theorem run_planner_calls (cfg : RunConfig) :
    (run_agentic_search cfg).planner_calls = (runLoop cfg (initState cfg)).planner_calls := rfl

theorem run_provider_calls (cfg : RunConfig) :
    (run_agentic_search cfg).provider_calls = (runLoop cfg (initState cfg)).provider_calls := rfl

/-- If the accumulated raw contact count has reached `min_results`, the
loop breaks immediately (it also stops when the queue is exhausted). -/
theorem runLoop_stop (cfg : RunConfig) (st : RunState)
    (hmin : cfg.min_results ≤ (st.all_contacts.length : Int)) :
    runLoop cfg st = st := by
  rw [runLoop.eq_def]
  by_cases h : st.idx < st.search_queries.length
  · simp [h, hmin]
  · simp [h]

/-- Structural invariants of the loop state: the round counter, the history
index and the per-round contact lists move in lockstep, the executed specs
are exactly the already-consumed prefix of the (growing) query list, and
every executed round started below the `min_results` threshold. -/
def MainInv (cfg : RunConfig) (st : RunState) : Prop :=
  st.iteration = st.idx ∧
  st.idx = st.search_history.length ∧
  st.search_history.map RoundRecord.query_params = st.search_queries.take st.idx ∧
  st.all_contacts = st.contacts_per_round.flatten ∧
  st.contacts_per_round.length = st.search_history.length ∧
  (∀ r < st.search_history.length,
    (((st.contacts_per_round.take r).flatten).length : Int) < cfg.min_results)

theorem MainInv_init (cfg : RunConfig) : MainInv cfg (initState cfg) := by
  refine ⟨rfl, rfl, rfl, rfl, rfl, ?_⟩
  intro r hr
  simp [initState] at hr

/-- One executed round preserves `MainInv`, whatever the provider returned
and whatever the planner enqueued. -/
theorem MainInv_step (cfg : RunConfig) (x x' : RunState)
    (hlt : x.idx < x.search_queries.length)
    (hbreak : ¬cfg.min_results ≤ (x.all_contacts.length : Int))
    (contacts : List Contact) (rec : RoundRecord) (newq : List QuerySpec)
    (hrec : rec.query_params = x.search_queries[x.idx])
    (hac : x'.all_contacts = x.all_contacts ++ contacts)
    (hh : x'.search_history = x.search_history ++ [rec])
    (hit : x'.iteration = x.iteration + 1)
    (hq : x'.search_queries = x.search_queries ++ newq)
    (hidx : x'.idx = x.idx + 1)
    (hcpr : x'.contacts_per_round = x.contacts_per_round ++ [contacts])
    (hinv : MainInv cfg x) : MainInv cfg x' := by
  obtain ⟨i1, i2, i3, i4, i5, i6⟩ := hinv
  refine ⟨?_, ?_, ?_, ?_, ?_, ?_⟩
  · rw [hit, hidx, i1]
  · rw [hidx, hh, i2]; simp
  · rw [hh, hq, hidx, List.map_append, i3]
    rw [List.take_append_of_le_length (by omega)]
    rw [List.take_succ, List.getElem?_eq_getElem hlt]
    simp [hrec]
  · rw [hac, hcpr, i4]; simp
  · rw [hcpr, hh]; simp [i5]
  · intro r hr
    rw [hh] at hr
    simp only [List.length_append, List.length_singleton] at hr
    rw [hcpr, List.take_append_of_le_length (by omega)]
    rcases Nat.lt_or_ge r x.search_history.length with hlt' | hge
    · exact i6 r hlt'
    · have hreq : r = x.contacts_per_round.length := by omega
      rw [hreq, List.take_length, ← i4]
      omega

/-- The loop preserves `MainInv`. -/
theorem runLoop_MainInv (cfg : RunConfig) (st : RunState) :
    MainInv cfg st → MainInv cfg (runLoop cfg st) := by
  induction st using runLoop.induct cfg with
  | case1 x hlt hbreak =>
    intro h
    rw [runLoop.eq_def]; simp only [dif_pos hlt, if_pos hbreak]
    exact h
  | case2 x hlt hbreak qp iter res hist hres hiter ih =>
    intro h
    rw [runLoop.eq_def]; simp only [dif_pos hlt, if_neg hbreak]
    rw [if_pos hres, dif_pos hiter]
    exact ih (MainInv_step cfg x _ hlt hbreak res.1 _ _ rfl (by simp [hres]) rfl rfl rfl rfl
      rfl h)
  | case3 x hlt hbreak qp iter res hist hres hiter ih =>
    intro h
    rw [runLoop.eq_def]; simp only [dif_pos hlt, if_neg hbreak]
    rw [if_pos hres, dif_neg hiter]
    exact ih (MainInv_step cfg x _ hlt hbreak res.1 _ [] rfl (by simp [hres]) rfl rfl
      (by simp) rfl rfl h)
  | case4 x hlt hbreak qp iter res hist hres hcond ih =>
    intro h
    rw [runLoop.eq_def]; simp only [dif_pos hlt, if_neg hbreak]
    rw [if_neg hres, dif_pos hcond]
    exact ih (MainInv_step cfg x _ hlt hbreak res.1 _ _ rfl rfl rfl rfl rfl rfl rfl h)
  | case5 x hlt hbreak qp iter res hist hres hcond ih =>
    intro h
    rw [runLoop.eq_def]; simp only [dif_pos hlt, if_neg hbreak]
    rw [if_neg hres, dif_neg hcond]
    exact ih (MainInv_step cfg x _ hlt hbreak res.1 _ [] rfl rfl rfl rfl
      (by simp) rfl rfl h)
  | case6 x hlt =>
    intro h
    rw [runLoop.eq_def]; simp only [dif_neg hlt]
    exact h

/-- When the planner produces no expansion and no refinement queries, the
query list never changes. -/
theorem runLoop_queue_const (cfg : RunConfig)
    (hexp : ∀ cs h, cfg.expand cs h = []) (href : ∀ q h, cfg.refine q h = [])
    (st : RunState) :
    (runLoop cfg st).search_queries = st.search_queries := by
  induction st using runLoop.induct cfg with
  | case1 x hlt hbreak =>
    rw [runLoop.eq_def]; simp only [dif_pos hlt, if_pos hbreak]
  | case2 x hlt hbreak qp iter res hist hres hiter ih =>
    rw [runLoop.eq_def]; simp only [dif_pos hlt, if_neg hbreak]
    rw [if_pos hres, dif_pos hiter, ih]
    simp [href]
  | case3 x hlt hbreak qp iter res hist hres hiter ih =>
    rw [runLoop.eq_def]; simp only [dif_pos hlt, if_neg hbreak]
    rw [if_pos hres, dif_neg hiter, ih]
  | case4 x hlt hbreak qp iter res hist hres hcond ih =>
    rw [runLoop.eq_def]; simp only [dif_pos hlt, if_neg hbreak]
    rw [if_neg hres, dif_pos hcond, ih]
    simp [hexp]
  | case5 x hlt hbreak qp iter res hist hres hcond ih =>
    rw [runLoop.eq_def]; simp only [dif_pos hlt, if_neg hbreak]
    rw [if_neg hres, dif_neg hcond, ih]
  | case6 x hlt =>
    rw [runLoop.eq_def]; simp only [dif_neg hlt]

/-! ### Concrete test fixtures -/

def qA : QuerySpec := ⟨["CEO"], ["AI"], ["c_suite"], ["11-50"], "seed 1"⟩

def qB : QuerySpec := ⟨["CTO"], ["SaaS"], ["c_suite"], ["51-200"], "seed 2"⟩

def qC : QuerySpec := ⟨["VP Sales"], ["B2B"], ["vp"], [], "seed 3"⟩

def qD : QuerySpec := ⟨["CFO"], ["FinTech"], ["c_suite"], [], "seed 4"⟩

def c1 : Contact := ⟨some "ceo@acme.com", some "li/ceo", some "id1", some "Acme", "Alice"⟩

def errProvider : QuerySpec → Int → Except String (List Contact) :=
  fun _ _ => .error "http 429: quota exceeded"

/-! ### Claim C1 -/

def cfgC1 : RunConfig :=
  { provider := fun _ _ => .ok []
    initial_queries := [qA, qB, qC, qD]
    expand := fun _ _ => []
    refine := fun _ _ => []
    max_iterations := 3
    min_results := 100
    max_results_per_query := 25 }

/-- C1: the claim (and the source's own docstring, which calls
`max_iterations` the "Maximum number of search iterations") says the
returned `search_history` never exceeds `max_iterations` rounds.  The code
only consults `max_iterations` when deciding whether to enqueue new
specs, never as a loop bound: with four initial queries, `max_iterations =
3` and no results, four rounds execute and the round counter reaches 4. -/
theorem C1_rounds_exceed_max_iterations :
    cfgC1.max_iterations = 3 ∧
    (run_agentic_search cfgC1).search_history.length = 4 ∧
    (run_agentic_search cfgC1).iterations = 4 := by
  refine ⟨rfl, ?_, ?_⟩ <;>
    simp [run_agentic_search, initState, runLoop, cfgC1, execute_apollo_search,
      extractCompanies, qA, qB, qC, qD]

/-! ### Claim C2 -/

def cfgC2 : RunConfig :=
  { provider := errProvider
    initial_queries := [qA]
    expand := fun _ _ => []
    refine := fun _ _ => [qB]
    max_iterations := 2
    min_results := 10
    max_results_per_query := 25 }

/-- C2 counterexample: the provider errors on every call, yet
`_execute_apollo_search` returns exactly the zero-result success value
`([], [])` (the error is not returned to the controller and is not
distinguishable from zero results), and the controller even enqueues and
executes a refinement spec `qB` produced from the erroring round. -/
theorem C2_counterexample :
    errProvider qA 25 = .error "http 429: quota exceeded" ∧
    execute_apollo_search errProvider qA 25 = ([], []) ∧
    execute_apollo_search (fun _ _ => .ok []) qA 25 = ([], []) ∧
    (run_agentic_search cfgC2).search_history.map RoundRecord.query_params = [qA, qB] := by
  refine ⟨rfl, rfl, rfl, ?_⟩
  simp [run_agentic_search, initState, runLoop, cfgC2, errProvider, execute_apollo_search,
    extractCompanies, qA, qB]

/-- C2 amended: when the provider call fails, `_execute_apollo_search`
catches the exception and returns `([], [])` — the same value as a
successful zero-result search — so the controller records an ordinary
round with `results_count = 0`, cannot distinguish the error from zero
results, and treats the round as a failed search (enqueuing refinement
specs when the iteration bound allows). -/
theorem C2_error_swallowed (provider : QuerySpec → Int → Except String (List Contact))
    (q : QuerySpec) (cap : Int) (e : String) (h : provider q cap = .error e) :
    execute_apollo_search provider q cap = ([], []) := by
  simp [execute_apollo_search, h]

theorem C2_error_swallowed_witness :
    execute_apollo_search errProvider qB 25 = ([], []) :=
  C2_error_swallowed errProvider qB 25 "http 429: quota exceeded" rfl

/-! ### Claim C3 -/

def cfgC3 : RunConfig :=
  { provider := fun _ _ => .ok [c1]
    initial_queries := [qA]
    expand := fun _ _ => []
    refine := fun _ _ => []
    max_iterations := 3
    min_results := 0
    max_results_per_query := 25 }

/-- C3 counterexample: with `min_results = 0` there is no fail-fast
validation and no error value at all — the run returns an ordinary result;
the planning oracle IS contacted (the unconditional
`_generate_search_queries` call precedes any use of the bounds), while the
provider is not, and the history is empty because the `>= min_results`
break fires immediately. -/
theorem C3_counterexample :
    cfgC3.min_results = 0 ∧
    (run_agentic_search cfgC3).planner_calls = 1 ∧
    (run_agentic_search cfgC3).search_history = [] ∧
    (run_agentic_search cfgC3).provider_calls = 0 := by
  refine ⟨rfl, ?_, ?_, ?_⟩ <;>
    simp [run_agentic_search, initState, runLoop, cfgC3, execute_apollo_search,
      extractCompanies, qA, c1, deduplicate_contacts]

/-- C3 amended: `run_agentic_search` performs no bound validation.  For any
non-positive `min_results` it still calls the planning oracle once for
initial queries, then exits the loop before any provider call and returns
a normal (error-free) result with empty history and no contacts. -/
theorem C3_no_validation (cfg : RunConfig) (hmin : cfg.min_results ≤ 0) :
    (run_agentic_search cfg).search_history = [] ∧
    (run_agentic_search cfg).contacts = [] ∧
    (run_agentic_search cfg).provider_calls = 0 ∧
    (run_agentic_search cfg).planner_calls = 1 := by
  have hstop : runLoop cfg (initState cfg) = initState cfg :=
    runLoop_stop cfg (initState cfg) (by simpa [initState] using hmin)
  refine ⟨?_, ?_, ?_, ?_⟩
  · rw [run_search_history, hstop]; rfl
  · rw [run_contacts, hstop]; rfl
  · rw [run_provider_calls, hstop]; rfl
  · rw [run_planner_calls, hstop]; rfl

theorem C3_no_validation_witness :
    cfgC3.min_results ≤ 0 ∧
    ((run_agentic_search cfgC3).search_history = [] ∧
     (run_agentic_search cfgC3).contacts = [] ∧
     (run_agentic_search cfgC3).provider_calls = 0 ∧
     (run_agentic_search cfgC3).planner_calls = 1) :=
  ⟨by norm_num [cfgC3], C3_no_validation cfgC3 (by norm_num [cfgC3])⟩

/-! ### Claim C4 -/

/-- C4: if after some round `r` the accumulated deduplicated contact count
has reached `min_results`, no further round is executed: `r` is the last
round, i.e. the history length equals `r`.  (The loop actually breaks on
the raw accumulated count, which is at least the deduplicated count, so
reaching the threshold on unique contacts always stops the loop.) -/
theorem C4_convergence_stops (cfg : RunConfig) (r : Nat)
    (hr : r ≤ (run_agentic_search cfg).search_history.length)
    (hmin : cfg.min_results ≤
      ((deduplicate_contacts
        (((run_agentic_search cfg).contacts_per_round.take r).flatten)).length : Int)) :
    r = (run_agentic_search cfg).search_history.length := by
  rw [run_contacts_per_round] at hmin
  rw [run_search_history] at hr ⊢
  by_contra hne
  have hlt : r < (runLoop cfg (initState cfg)).search_history.length :=
    lt_of_le_of_ne hr hne
  obtain ⟨_, _, _, _, _, i6⟩ := runLoop_MainInv cfg (initState cfg) (MainInv_init cfg)
  have hraw := i6 r hlt
  have hle := dedup_length_le
    (((runLoop cfg (initState cfg)).contacts_per_round.take r).flatten)
  omega

def cfgC4 : RunConfig :=
  { provider := fun _ _ => .ok [c1]
    initial_queries := [qA, qB]
    expand := fun _ _ => []
    refine := fun _ _ => []
    max_iterations := 5
    min_results := 1
    max_results_per_query := 25 }

theorem C4_convergence_stops_witness :
    (1 ≤ (run_agentic_search cfgC4).search_history.length ∧
     cfgC4.min_results ≤
      ((deduplicate_contacts
        (((run_agentic_search cfgC4).contacts_per_round.take 1).flatten)).length : Int)) ∧
    1 = (run_agentic_search cfgC4).search_history.length := by
  have hlen : (run_agentic_search cfgC4).search_history.length = 1 := by
    simp [run_agentic_search, initState, runLoop, cfgC4, execute_apollo_search,
      extractCompanies, qA, qB, c1]
  have hcpr : (run_agentic_search cfgC4).contacts_per_round = [[c1]] := by
    simp [run_agentic_search, initState, runLoop, cfgC4, execute_apollo_search,
      extractCompanies, qA, qB, c1]
  have hmin : cfgC4.min_results ≤
      ((deduplicate_contacts
        (((run_agentic_search cfgC4).contacts_per_round.take 1).flatten)).length : Int) := by
    rw [hcpr]; decide
  exact ⟨⟨by omega, hmin⟩, C4_convergence_stops cfgC4 1 (by omega) hmin⟩

/-! ### Claim C5 -/

def a5 : Contact := ⟨some "a@x.com", some "li/shared", none, none, "a"⟩

def b5 : Contact := ⟨some "b@x.com", some "li/shared", none, none, "b"⟩

/-- C5 counterexample: `b5` carries a fresh IdentityKey (its non-placeholder
email differs from `a5`'s, so under the claimed single-key-with-priority
policy it would be added), yet `_deduplicate_contacts` drops it because its
LinkedIn URL matches `a5`'s: the code checks the three identity fields
independently, not one prioritized key. -/
theorem C5_counterexample :
    specIdentityKey a5 = some (.email "a@x.com") ∧
    specIdentityKey b5 = some (.email "b@x.com") ∧
    deduplicate_contacts [a5, b5] = [a5] := by decide

/-- C5 amended: deduplication drops an incoming record if any of its three
identity fields (non-placeholder truthy email, truthy profile URL, truthy
provider id — checked in that order) was already seen on a previously
retained record, and otherwise retains it, registering all its present
fields; a record with a fresh IdentityKey can therefore still be dropped.
The claim's final-output invariant does hold: no two records in the output
share a non-trivial IdentityKey. -/
theorem C5_no_shared_key (l : List Contact) :
    (deduplicate_contacts l).Pairwise
      (fun x y => ∀ k, specIdentityKey x = some k → specIdentityKey y ≠ some k) :=
  dedup_key_pairwise l

/-! ### Claim C6 -/

def c6 : Contact := ⟨some "email_not_unlocked@domain.com", none, none, none, "keyless"⟩

/-- C6 counterexample: a record with no stable identity (placeholder email,
no URL, no id) is always re-added, so deduplicating a list concatenated
with itself does NOT equal deduplicating the list once. -/
theorem C6_counterexample :
    specIdentityKey c6 = none ∧
    deduplicate_contacts ([c6] ++ [c6]) ≠ deduplicate_contacts [c6] := by decide

/-- C6 amended: dedup idempotence holds for lists all of whose records have
a stable identity key (some truthy non-placeholder email, profile URL or
provider id): merging such a list a second time adds nothing, so
deduplicating the list concatenated with itself equals deduplicating it
once.  Records with no stable identity are deliberately re-added. -/
theorem C6_idempotent_on_keyed (l : List Contact)
    (hk : ∀ c ∈ l, specIdentityKey c ≠ none) :
    deduplicate_contacts (l ++ l) = deduplicate_contacts l :=
  dedup_self_append_of_keys l hk

theorem C6_idempotent_on_keyed_witness :
    (∀ c ∈ [a5, c1], specIdentityKey c ≠ none) ∧
    deduplicate_contacts ([a5, c1] ++ [a5, c1]) = deduplicate_contacts [a5, c1] :=
  ⟨by decide, C6_idempotent_on_keyed [a5, c1] (by decide)⟩

/-! ### Claim C7 -/

/-- C7: two records whose emails are both known placeholder strings are
never collapsed merely for sharing the placeholder: in a two-record batch
they both survive deduplication unless they also share a (truthy) profile
URL or provider id. -/
theorem C7_placeholder_distinct (a b : Contact)
    (ha : ∃ e, a.email = some e ∧ e ∈ placeholder_emails)
    (hb : ∃ e, b.email = some e ∧ e ∈ placeholder_emails)
    (hL : ∀ u, dedupLinkedin a = some u → dedupLinkedin b ≠ some u)
    (hI : ∀ i, dedupId a = some i → dedupId b ≠ some i) :
    deduplicate_contacts [a, b] = [a, b] :=
  placeholder_pair_kept a b ha hb hL hI

def p7a : Contact := ⟨some "email_not_unlocked@domain.com", some "li/p1", some "i1", none, "p"⟩

def p7b : Contact := ⟨some "email_not_unlocked@domain.com", some "li/p2", some "i2", none, "q"⟩

theorem C7_placeholder_distinct_witness :
    deduplicate_contacts [p7a, p7b] = [p7a, p7b] := by
  apply C7_placeholder_distinct p7a p7b
  · exact ⟨"email_not_unlocked@domain.com", rfl, by decide⟩
  · exact ⟨"email_not_unlocked@domain.com", rfl, by decide⟩
  · intro u hu
    simp [p7a, dedupLinkedin, nonEmptyOpt] at hu
    subst hu
    decide
  · intro i hi
    simp [p7a, dedupId, nonEmptyOpt] at hi
    subst hi
    decide

/-! ### Claim C8 -/

/-- C8: when the planner produces no expansion and no refinement queries,
the specs recorded in `search_history` are exactly the executed prefix of
the initial seed, in seed order (FIFO): earlier-generated specs execute
before later ones. -/
theorem C8_fifo_seed_order (cfg : RunConfig)
    (hexp : ∀ cs h, cfg.expand cs h = [])
    (href : ∀ q h, cfg.refine q h = []) :
    (run_agentic_search cfg).search_history.map RoundRecord.query_params =
      cfg.initial_queries.take ((run_agentic_search cfg).search_history.length) := by
  obtain ⟨_, i2, i3, _, _, _⟩ := runLoop_MainInv cfg (initState cfg) (MainInv_init cfg)
  have hq := runLoop_queue_const cfg hexp href (initState cfg)
  rw [run_search_history, i3, i2, hq]
  rfl

def cfgC8 : RunConfig :=
  { provider := fun _ _ => .ok [c1]
    initial_queries := [qA, qB, qC]
    expand := fun _ _ => []
    refine := fun _ _ => []
    max_iterations := 5
    min_results := 10
    max_results_per_query := 25 }

theorem C8_fifo_seed_order_witness :
    (run_agentic_search cfgC8).search_history.map RoundRecord.query_params =
      cfgC8.initial_queries.take ((run_agentic_search cfgC8).search_history.length) :=
  C8_fifo_seed_order cfgC8 (fun _ _ => rfl) (fun _ _ => rfl)

/-! ### Claim C9 -/

def cfgC9 : RunConfig :=
  { provider := fun _ _ => .ok []
    initial_queries := [qA, qA]
    expand := fun _ _ => []
    refine := fun _ _ => []
    max_iterations := 5
    min_results := 10
    max_results_per_query := 25 }

/-- C9 counterexample: the loop keeps no executed-spec set and never
deduplicates the query list, so an identical QuerySpec (here seeded twice,
but planner output is appended just as blindly) is executed twice in one
run: the claimed no-re-execution invariant does not hold. -/
theorem C9_counterexample :
    (run_agentic_search cfgC9).search_history.map RoundRecord.query_params = [qA, qA] := by
  simp [run_agentic_search, initState, runLoop, cfgC9, execute_apollo_search,
    extractCompanies, qA]

/-- C9 amended: what the loop does guarantee is positional FIFO consumption:
the executed specs are exactly the first `history.length` entries of the
final query list, each queue position being consumed at most once — but
nothing stops two positions from holding identical QuerySpecs, which are
then both executed. -/
theorem C9_fifo_positions (cfg : RunConfig) :
    (run_agentic_search cfg).search_history.map RoundRecord.query_params =
      (run_agentic_search cfg).final_queue.take
        ((run_agentic_search cfg).search_history.length) := by
  obtain ⟨_, i2, i3, _, _, _⟩ := runLoop_MainInv cfg (initState cfg) (MainInv_init cfg)
  rw [run_search_history, run_final_queue, i3, i2]

/-! ### Claim C10 -/

def a10 : Contact := ⟨none, some "li/shared", none, none, "a"⟩

def b10 : Contact := ⟨some "e@x.com", some "li/shared", none, none, "b"⟩

def c10 : Contact := ⟨some "e@x.com", none, none, none, "c"⟩

/-- C10 counterexample: the output is a subsequence of the input, but a
retained record need not be the first occurrence of its identity: `b10` is
the first input record with IdentityKey `email "e@x.com"`, is dropped
(its LinkedIn URL was seen on `a10`), and the later `c10` with the very
same key is retained. -/
theorem C10_counterexample :
    deduplicate_contacts [a10, b10, c10] = [a10, c10] ∧
    specIdentityKey b10 = specIdentityKey c10 ∧
    b10 ≠ c10 := by decide

/-- C10 amended: `_deduplicate_contacts` returns an order-preserving
subsequence of its input — each retained record is an unmodified input record,
relative order is preserved and nothing is invented — but a retained record
is the first record none of whose identity fields was seen on an earlier
retained record, not necessarily the first occurrence of its IdentityKey. -/
theorem C10_output_subsequence (l : List Contact) :
    (deduplicate_contacts l).Sublist l :=
  dedup_sublist l

end AgenticSearch
